import Mathlib

/-!
Shallow embedding of the crawl-and-extract engine of the tax news crawler
(src/news_crawler_agent.py).  Pure Lean translations of the string, URL,
tag-validation, retry, deduplication, persistence and orchestration logic;
the network, the LLM oracle, the clock and the database are modelled as
explicit parameters.  Strings are modelled through their character lists.
-/

namespace TaxNews

/-! ### Python string helpers -/

/-- WHATWG C0-control-or-space class (code points up to U+0020); these are
stripped from the start of a URL by urllib.parse.urlsplit in current
CPython before parsing. -/
def c0_or_space (c : Char) : Bool := decide (c.toNat ≤ 32)

/-- The bytes urllib.parse.urlsplit removes anywhere in the URL
(_UNSAFE_URL_BYTES_TO_REMOVE): tab, carriage return, newline. -/
def unsafe_byte (c : Char) : Bool := decide (c = '\t' ∨ c = '\r' ∨ c = '\n')

/-- The cleanup urllib.parse.urlsplit applies to its input before parsing:
left-strip C0 controls and space, then drop tab, CR and LF everywhere. -/
def clean_chars (l : List Char) : List Char :=
  (l.dropWhile c0_or_space).filter (fun c => !unsafe_byte c)

/-- Default whitespace of Python str.strip (the ASCII part, which is all
the crawler ever meets). -/
def isPySpace (c : Char) : Bool :=
  decide (c = ' ' ∨ c = '\t' ∨ c = '\n' ∨ c = '\r' ∨ c = '\x0b' ∨ c = '\x0c')

/-- Python str.strip() on the character list. -/
def strip_chars (l : List Char) : List Char :=
  ((l.dropWhile isPySpace).reverse.dropWhile isPySpace).reverse

/-- Python str.strip(). -/
def py_strip (s : String) : String := ⟨strip_chars s.data⟩

/-- Python str.lower(); the tags involved are ASCII or CJK, where this
agrees with Char.toLower. -/
def py_lower (s : String) : String := ⟨s.data.map Char.toLower⟩

/-- Python str.startswith for a string pair, at character level. -/
def starts_with_chars : List Char → List Char → Bool
  | _, [] => true
  | [], _ :: _ => false
  | c :: cs, p :: ps => c = p && starts_with_chars cs ps

/-- The check url.startswith(("http:" ++ "//", "https:" ++ "//")) of
normalize_urls (news_crawler_agent.py:290). -/
def starts_with_http (url : String) : Bool :=
  starts_with_chars url.data "http://".data || starts_with_chars url.data "https://".data

/-! ### URL parsing (urllib.parse as used by the crawler)

urllib.parse.urlsplit recognises a scheme as a leading ASCII letter
followed by letters, digits, "+", "-" or ".", up to a colon; the scheme is
lower-cased.  A netloc is parsed only after a literal "//" and extends to
the first "/", "?" or "#".  Path dot-segment normalisation is not modelled;
it never changes the scheme or the netloc of the result. -/

def isSchemeChar (c : Char) : Bool :=
  c.isAlpha || c.isDigit || decide (c = '+' ∨ c = '-' ∨ c = '.')

/-- Scan scheme characters up to a colon. -/
def schemeSplitAux : List Char → Option (List Char × List Char)
  | [] => none
  | c :: cs =>
    if c = ':' then some ([], cs)
    else if isSchemeChar c then
      match schemeSplitAux cs with
      | some (s, r) => some (c :: s, r)
      | none => none
    else none

/-- Scheme detection of urllib.parse.urlsplit: the first character must be
an ASCII letter, every character before the colon a scheme character. -/
def scheme_split_chars (l : List Char) : Option (List Char × List Char) :=
  match l with
  | [] => none
  | c :: cs => if c.isAlpha then schemeSplitAux (c :: cs) else none

/-- Netloc scan: up to the first "/", "?" or "#". -/
def netlocSplit : List Char → List Char × List Char
  | [] => ([], [])
  | c :: cs =>
    if c = '/' ∨ c = '?' ∨ c = '#' then ([], c :: cs)
    else (c :: (netlocSplit cs).1, (netlocSplit cs).2)

/-- The netloc of the remainder after the scheme: present only after a
literal "//". -/
def netloc_of (rest : List Char) : List Char :=
  if rest.take 2 = ['/', '/'] then (netlocSplit (rest.drop 2)).1 else []

/-- extract_base_url (news_crawler_agent.py:299-302): urlparse the URL and
rebuild "scheme://netloc". -/
def extract_base_url (url : String) : String :=
  match scheme_split_chars (clean_chars url.data) with
  | some sr => (⟨sr.1.map Char.toLower⟩ : String) ++ "://" ++ ⟨netloc_of sr.2⟩
  | none => ("" : String) ++ "://" ++ ⟨netloc_of (clean_chars url.data)⟩

/-- The (lower-cased) scheme of a URL, as urllib.parse.urlsplit parses it. -/
def scheme_of (url : String) : String :=
  match scheme_split_chars (clean_chars url.data) with
  | some sr => ⟨sr.1.map Char.toLower⟩
  | none => ""

/-- Resolution of a schemeless (or same-scheme) reference r against a base
of the form "scheme://host" (empty path), following urllib.parse.urljoin:
a network-path reference "//..." takes its own netloc; an absolute path,
query or fragment attaches to the base origin; a relative path is merged
against the empty base path, giving "/" ++ r. -/
def resolve_rel (base bscheme : String) (r : List Char) : String :=
  if r.take 2 = ['/', '/'] then bscheme ++ ":" ++ ⟨r⟩
  else if r.take 1 = ['/'] ∨ r.take 1 = ['?'] ∨ r.take 1 = ['#'] then base ++ ⟨r⟩
  else base ++ "/" ++ ⟨r⟩

/-- urllib.parse.urljoin, modelled for bases of the form "scheme://host"
with empty path — the only call pattern in the source, where the base is
always extract_base_url of the source URL (news_crawler_agent.py:311-314).
A reference carrying a different scheme is returned unchanged; a reference
empty after cleanup resolves to the base. -/
def urljoin (base url : String) : String :=
  if base = "" then url
  else if url = "" then base
  else
    match scheme_split_chars (clean_chars url.data) with
    | some sr =>
        if (⟨sr.1.map Char.toLower⟩ : String) = scheme_of base then
          resolve_rel base (scheme_of base) sr.2
        else url
    | none =>
        match clean_chars url.data with
        | [] => base
        | u => resolve_rel base (scheme_of base) u

/-- normalize_urls (news_crawler_agent.py:281-297): skip falsy (empty)
entries, pass entries starting with "http:" ++ "//" or "https:" ++ "//"
through unchanged, resolve the rest with urljoin against base_url. -/
def normalize_urls (urls : List String) (base_url : String) : List String :=
  match urls with
  | [] => []
  | url :: rest =>
    if url = "" then normalize_urls rest base_url
    else if starts_with_http url then url :: normalize_urls rest base_url
    else urljoin base_url url :: normalize_urls rest base_url

/-- A network-path ("protocol-relative") reference: one beginning with
a literal "//". -/
def protocol_relative (l : List Char) : Bool := decide (l.take 2 = ['/', '/'])

/-- A well-formed lower-case scheme component: a lower-case ASCII letter
followed by lower-case scheme characters, none in the C0-or-space class. -/
def scheme_ok (s : String) : Bool :=
  match s.data with
  | [] => false
  | c :: cs =>
    c.isAlpha && decide (c.toLower = c) && !c0_or_space c
      && cs.all (fun d => isSchemeChar d && decide (d.toLower = d) && !c0_or_space d)

/-- A well-formed host (netloc) component: free of "/", "?", "#" and of
C0-or-space characters. -/
def host_ok (h : String) : Bool :=
  h.data.all (fun c => !decide (c = '/' ∨ c = '?' ∨ c = '#') && !c0_or_space c)

/-! ### Tag validation -/

/-- get_valid_tags_by_language (news_crawler_agent.py:339-346): the fixed
controlled vocabulary per language, defaulting to the Chinese one. -/
def get_valid_tags_by_language (language : String) : List String :=
  if language = "en" then ["Legislation", "Policy", "HKICPA", "ACCA"]
  else if language = "zh-hk" then ["立法", "政策", "HKICPA", "ACCA"]
  else if language = "zh" then ["立法", "政策", "HKICPA", "ACCA"]
  else ["立法", "政策", "HKICPA", "ACCA"]

/-- The inner case-insensitive loop of validate_tags: first vocabulary
entry whose lower-case form equals the given lower-cased tag, emitted in
its original (canonical) casing. -/
def ci_match : List String → String → Option String
  | [], _ => none
  | v :: vs, tl => if tl = py_lower v then some v else ci_match vs tl

/-- One iteration of the filtering loop of validate_tags
(news_crawler_agent.py:354-369): skip falsy tags, strip, try exact match,
then case-insensitive match. -/
def match_tag (valid_tags : List String) (tag : String) : Option String :=
  if tag = "" then none
  else
    let tag_clean := py_strip tag
    if tag_clean ∈ valid_tags then some tag_clean
    else ci_match valid_tags (py_lower tag_clean)

/-- The deduplication loop of validate_tags (news_crawler_agent.py:372-378):
keep the first occurrence of each tag, tracking a seen set. -/
def dedup_go (seen : List String) : List String → List String
  | [] => []
  | t :: rest => if t ∈ seen then dedup_go seen rest else t :: dedup_go (t :: seen) rest

/-- validate_tags (news_crawler_agent.py:348-383): filter against the
language vocabulary, then deduplicate preserving first-seen order. -/
def validate_tags (tags : List String) (language : String) : List String :=
  dedup_go [] (tags.filterMap (match_tag (get_valid_tags_by_language language)))

/-- Modelled from the spec: deduplication that keeps the first occurrence
of each element ("deduplicated preserving first-seen order"), to be
compared with the seen-set loop of the source. -/
def dedup_first_spec : List String → List String
  | [] => []
  | x :: xs => x :: dedup_first_spec (xs.filter (fun y => y ≠ x))
termination_by l => l.length
decreasing_by
simp only [List.length_cons]
exact Nat.lt_succ_of_le (List.length_filter_le _ _)

/-! ### Extraction results and their validation/repair

The oracle output is a parsed JSON object; the fields the code reads are
modelled with their Python dynamism: each key may be missing, the tags
value may be a list, a single string or something else, the relevance
value may be a bool or anything else (observed through its str() form). -/

/-- A tags value as found in a parsed oracle response. -/
inductive PyTags where
  | ofList (xs : List String)
  | ofStr (s : String)
  | other
deriving DecidableEq

/-- An is_relevant value as found in a parsed oracle response: a real bool
or a non-bool observed through its str() form. -/
inductive PyBool where
  | ofBool (b : Bool)
  | ofOther (str_form : String)
deriving DecidableEq

/-- A parsed oracle response (the dict handed to validate_and_fix_result),
with every field possibly missing. -/
structure RawResult where
  title : Option String
  summary : Option String
  tags : Option PyTags
  publish_date : Option String
  is_relevant : Option PyBool
deriving DecidableEq

/-- The dict after validate_and_fix_result: all five keys present and
well-typed. -/
structure ValidatedResult where
  title : String
  summary : String
  tags : List String
  publish_date : String
  is_relevant : Bool
deriving DecidableEq

/-- The dict returned by a successful extract_news_content
(news_crawler_agent.py:483-488): no is_relevant key. -/
structure NewsData where
  title : String
  summary : String
  tags : List String
  publish_date : String
deriving DecidableEq

/-- The coercion str(x).lower() in ("true", "1", "yes") applied to a
non-bool relevance value (news_crawler_agent.py:408). -/
def truthy_string (s : String) : Bool :=
  decide (py_lower s = "true" ∨ py_lower s = "1" ∨ py_lower s = "yes")

/-- validate_and_fix_result (news_crawler_agent.py:385-410): default the
missing fields, coerce a string tags value to a one-element list and any
other non-list to the empty list, filter tags against the vocabulary,
coerce a non-bool relevance value through its string form. -/
def validate_and_fix_result (r : RawResult) (language : String) : ValidatedResult :=
  { title := r.title.getD ""
    summary := r.summary.getD ""
    tags :=
      validate_tags
        (match r.tags.getD (PyTags.ofList []) with
         | PyTags.ofList xs => xs
         | PyTags.ofStr s => [s]
         | PyTags.other => [])
        language
    publish_date := r.publish_date.getD ""
    is_relevant :=
      match r.is_relevant.getD (PyBool.ofBool false) with
      | PyBool.ofBool b => b
      | PyBool.ofOther s => truthy_string s }

/-- The dict built on acceptance (news_crawler_agent.py:483-488). -/
def news_of (r : ValidatedResult) : NewsData :=
  { title := r.title, summary := r.summary, tags := r.tags, publish_date := r.publish_date }

/-- The retry loop of extract_news_content (news_crawler_agent.py:412-499).
One oracle invocation per attempt is modelled by `oracle attempt`:
`some raw` when either tier (the LangChain chain, or the direct LLM call
with clean_json_response repair) produced a parsed dict, `none` when both
tiers raised, in which case the loop sleeps and retries, returning None
after the last attempt.  A parsed dict is validated; missing title or
summary retries; an irrelevant result or one without validated tags
returns None at once; otherwise the four-field dict is returned.  The
fuel argument counts the attempts still available after the current one. -/
def extract_go (oracle : Nat → Option RawResult) (language : String) (attempt : Nat) :
    Nat → Option NewsData
  | 0 => none
  | fuel + 1 =>
    match oracle attempt with
    | none => if fuel = 0 then none else extract_go oracle language (attempt + 1) fuel
    | some raw =>
      if (validate_and_fix_result raw language).title = ""
          ∨ (validate_and_fix_result raw language).summary = "" then
        if fuel = 0 then none else extract_go oracle language (attempt + 1) fuel
      else if (validate_and_fix_result raw language).is_relevant = false then none
      else if (validate_and_fix_result raw language).tags = [] then none
      else some (news_of (validate_and_fix_result raw language))

/-- extract_news_content: max_retries = 3 attempts starting at attempt 0. -/
def extract_news_content (oracle : Nat → Option RawResult) (language : String) :
    Option NewsData :=
  extract_go oracle language 0 3

/-- The three LangChain content chains (news_crawler_agent.py:225-244). -/
inductive ContentChain where
  | english
  | traditional_chinese
  | simplified_chinese
deriving DecidableEq

/-- get_content_chain_by_language (news_crawler_agent.py:246-253):
dict lookup with the simplified-Chinese chain as default. -/
def get_content_chain_by_language (language : String) : ContentChain :=
  if language = "en" then ContentChain.english
  else if language = "zh-hk" then ContentChain.traditional_chinese
  else if language = "zh" then ContentChain.simplified_chinese
  else ContentChain.simplified_chinese

/-! ### Retry decorator -/

/-- An exception, identified by a tag, with the fact whether its type is
in the decorator's retryable exception tuple. -/
structure PyError where
  id : Nat
  retryable : Bool
deriving DecidableEq

/-- The while loop of retry_decorator (news_crawler_agent.py:42-66).  The
wrapped operation is `op attempt` (attempt counts calls from 0); the
result carries the number of calls made.  A failure whose type is in the
exceptions tuple is retried while retries remain (the backoff sleeps are
elided); when retries are exhausted the last exception is re-raised; a
failure not in the tuple escapes the except clause at once. -/
def retry_run {α : Type} (op : Nat → Except PyError α) (attempt : Nat) (remaining : Nat) :
    Except PyError α × Nat :=
  match op attempt with
  | Except.ok a => (Except.ok a, attempt + 1)
  | Except.error e =>
    if e.retryable then
      match remaining with
      | 0 => (Except.error e, attempt + 1)
      | r + 1 => retry_run op (attempt + 1) r
    else (Except.error e, attempt + 1)
termination_by remaining

/-- A function wrapped with retry_decorator(max_retries): run from the
first attempt with max_retries additional attempts available. -/
def retry_decorator_run {α : Type} (op : Nat → Except PyError α) (max_retries : Nat) :
    Except PyError α × Nat :=
  retry_run op 0 max_retries

/-! ### URL deduplication against the store -/

/-- The batching `urls[i:i + 50]` of check_urls_exist
(news_crawler_agent.py:509-511). -/
def chunkList : List String → List (List String)
  | [] => []
  | x :: xs => (x :: xs.take 49) :: chunkList (xs.drop 49)
termination_by l => l.length
decreasing_by
simp only [List.length_cons, List.length_drop]
omega

/-- The per-batch existence queries (news_crawler_agent.py:513-529): the
store is its membership function db; a failing batch query (`fails i`) is
logged and skipped, leaving its URLs unmarked.  The existing set is
modelled as a list used only through membership. -/
def collect_existing (db : String → Bool) (fails : Nat → Bool) :
    Nat → List (List String) → List String
  | _, [] => []
  | i, b :: bs => (if fails i then [] else b.filter db) ++ collect_existing db fails (i + 1) bs

/-- check_urls_exist (news_crawler_agent.py:501-535): empty input short
circuit, batched existence queries, then keep the URLs not found. -/
def check_urls_exist (db : String → Bool) (fails : Nat → Bool) (urls : List String) :
    List String :=
  if urls = [] then []
  else
    urls.filter (fun u => !decide (u ∈ collect_existing db fails 0 (chunkList urls)))

/-! ### Persistence -/

/-- A source dict as produced by get_source_list and threaded through the
crawl (keys url, language, source). -/
structure SourceDict where
  url : String
  language : String
  source : String
deriving DecidableEq

/-- The row handed to the INSERT of save_to_db
(news_crawler_agent.py:551-565).  The tags string is bound to the
news_type column by the INSERT statement. -/
structure DBRow where
  language : String
  source : String
  date : String
  content : String
  url : String
  title : String
  news_type : String
deriving DecidableEq

/-- save_to_db (news_crawler_agent.py:537-573).  A falsy (None) news_data
is ignored.  A falsy publish_date is overwritten in the caller's dict with
the current date (a parameter here; the mutation is modelled by returning
the dict as the caller observes it afterwards).  The second component is
the row handed to the INSERT; whether the INSERT succeeds is the store's
business (its failure is caught and logged in the source). -/
def save_to_db (news_data : Option NewsData) (source : SourceDict) (current_date : String) :
    Option NewsData × Option DBRow :=
  match news_data with
  | none => (none, none)
  | some nd =>
    let nd' := if nd.publish_date = "" then { nd with publish_date := current_date } else nd
    (some nd',
     some { language := source.language
            source := source.source
            date := nd'.publish_date
            content := nd'.summary
            url := source.url
            title := nd'.title
            news_type := String.intercalate ", " nd'.tags })

/-! ### Crawl orchestration

The collaborators of one crawl cycle, as explicit functions: fetch (raises
after its retries are exhausted), URL discovery by the oracle (raises on
unparseable output), content extraction (total: None on failure, see
extract_go), the store membership and batch-failure behaviour, INSERT
success, and the clock. -/

structure CrawlEnv where
  fetch : String → Except PyError String
  discover : String → Except PyError (List String)
  extract : String → String → Option NewsData
  db : String → Bool
  batch_fails : Nat → Bool
  insert_ok : DBRow → Bool
  current_date : String

/-- extract_news_urls (news_crawler_agent.py:304-324): a discovery error
is caught and yields []; otherwise the discovered URLs are normalized against
the origin of the source URL. -/
def extract_news_urls (env : CrawlEnv) (html source_url : String) : List String :=
  match env.discover html with
  | Except.error _ => []
  | Except.ok raw_urls => normalize_urls raw_urls (extract_base_url source_url)

/-- process_news_url (news_crawler_agent.py:575-586): the whole body is in
a try/except, so a fetch error is caught here; a falsy page is skipped; an
accepted extraction is saved with the source dict carrying this URL; the
result is the row actually inserted, none when nothing was persisted. -/
def process_news_url (env : CrawlEnv) (src : SourceDict) (url : String) : Option DBRow :=
  match env.fetch url with
  | Except.error _ => none
  | Except.ok html =>
    if html = "" then none
    else
      match env.extract html src.language with
      | none => none
      | some nd =>
        match (save_to_db (some nd) { src with url := url } env.current_date).2 with
        | none => none
        | some row => if env.insert_ok row then some row else none

/-- The per-URL loop of crawl_news (news_crawler_agent.py:615-622): each
iteration is guarded by its own try/except and process_news_url is itself
total, so the loop always reaches every URL; the pacing sleep is elided. -/
def process_url_loop (env : CrawlEnv) (src : SourceDict) : List String → List DBRow
  | [] => []
  | u :: rest =>
    match process_news_url env src u with
    | some row => row :: process_url_loop env src rest
    | none => process_url_loop env src rest

/-- crawl_news (news_crawler_agent.py:588-625): the whole body is in a
try/except, so a homepage fetch error ends only this source; empty
discovery or no new URLs end the source early; otherwise every new URL is
processed.  The result is the list of rows persisted for this source. -/
def crawl_news (env : CrawlEnv) (src : SourceDict) : List DBRow :=
  match env.fetch src.url with
  | Except.error _ => []
  | Except.ok html =>
    if html = "" then []
    else
      let news_urls := extract_news_urls env html src.url
      if news_urls = [] then []
      else
        let new_urls := check_urls_exist env.db env.batch_fails news_urls
        if new_urls = [] then []
        else process_url_loop env src new_urls

/-- crawl_all (news_crawler_agent.py:648-660): each source is guarded by
its own try/except and crawl_news is itself total, so the loop always
reaches every source. -/
def crawl_all (env : CrawlEnv) : List SourceDict → List DBRow
  | [] => []
  | s :: rest => crawl_news env s ++ crawl_all env rest

/-! ### Helper lemmas -/

theorem mem_dedup_go : ∀ (l seen : List String) (x : String), x ∈ dedup_go seen l → x ∈ l := by
  intro l
  induction l with
  | nil => intro seen x h; simp [dedup_go] at h
  | cons t rest ih =>
    intro seen x h
    rw [dedup_go] at h
    by_cases ht : t ∈ seen
    · rw [if_pos ht] at h
      exact List.mem_cons_of_mem _ (ih seen x h)
    · rw [if_neg ht] at h
      rcases List.mem_cons.mp h with h1 | h1
      · exact h1 ▸ List.mem_cons_self _ _
      · exact List.mem_cons_of_mem _ (ih _ x h1)

theorem dedup_go_nodup_aux : ∀ (l seen : List String),
    (dedup_go seen l).Nodup ∧ ∀ x ∈ dedup_go seen l, x ∉ seen := by
  intro l
  induction l with
  | nil => intro seen; simp [dedup_go]
  | cons t rest ih =>
    intro seen
    by_cases ht : t ∈ seen
    · rw [dedup_go, if_pos ht]
      exact ih seen
    · rw [dedup_go, if_neg ht]
      obtain ⟨hnd, hnin⟩ := ih (t :: seen)
      refine ⟨List.nodup_cons.mpr ⟨fun hmem => ?_, hnd⟩, ?_⟩
      · exact (hnin t hmem) (List.mem_cons_self t seen)
      · intro x hx
        rcases List.mem_cons.mp hx with rfl | hx2
        · exact ht
        · intro hxs
          exact (hnin x hx2) (List.mem_cons_of_mem _ hxs)

theorem dedup_first_spec_cons (x : String) (xs : List String) :
    dedup_first_spec (x :: xs) = x :: dedup_first_spec (xs.filter (fun y => y ≠ x)) := by
  rw [dedup_first_spec]

theorem dedup_go_eq_dedup_first_spec : ∀ (l seen : List String),
    dedup_go seen l = dedup_first_spec (l.filter (fun y => y ∉ seen)) := by
  intro l
  induction l with
  | nil => intro seen; simp [dedup_go, dedup_first_spec]
  | cons t rest ih =>
    intro seen
    by_cases ht : t ∈ seen
    · rw [dedup_go, if_pos ht]
      simp only [List.filter_cons, ht, not_true_eq_false, decide_False, Bool.false_eq_true,
        if_false]
      exact ih seen
    · rw [dedup_go, if_neg ht]
      simp only [List.filter_cons, ht, not_false_eq_true, decide_True, if_true]
      rw [dedup_first_spec_cons]
      rw [ih (t :: seen)]
      congr 1
      rw [List.filter_filter]
      congr 1
      apply List.filter_congr
      intro y _
      by_cases h1 : y = t <;> by_cases h2 : y ∈ seen <;> simp [h1, h2]

theorem ci_match_mem : ∀ (vs : List String) (tl x : String), ci_match vs tl = some x → x ∈ vs := by
  intro vs
  induction vs with
  | nil => intro tl x h; simp [ci_match] at h
  | cons v vs ih =>
    intro tl x h
    rw [ci_match] at h
    by_cases he : tl = py_lower v
    · rw [if_pos he] at h
      cases h
      exact List.mem_cons_self _ _
    · rw [if_neg he] at h
      exact List.mem_cons_of_mem _ (ih tl x h)

theorem match_tag_mem (vocab : List String) (t x : String) (h : match_tag vocab t = some x) :
    x ∈ vocab := by
  unfold match_tag at h
  by_cases h0 : t = ""
  · rw [if_pos h0] at h
    cases h
  · rw [if_neg h0] at h
    simp only at h
    by_cases h1 : py_strip t ∈ vocab
    · rw [if_pos h1] at h
      cases h
      exact h1
    · rw [if_neg h1] at h
      exact ci_match_mem _ _ _ h

/-! ### Claim theorems -/

/-- C3: validate_tags keeps exactly the entries matching the controlled
vocabulary of the language, emits each kept tag in the vocabulary's
canonical casing (every output element is a vocabulary element), equals
dedup-first of the per-tag matching (exact match first, then
case-insensitive), its output is duplicate-free, and the worked example
["legislation", "Unknown"] over the English vocabulary validates to
exactly ["Legislation"]. -/
theorem validate_tags_canonical_dedup :
    (∀ (tags : List String) (language : String) (x : String),
      x ∈ validate_tags tags language → x ∈ get_valid_tags_by_language language)
    ∧ (∀ (tags : List String) (language : String),
      validate_tags tags language
        = dedup_first_spec (tags.filterMap (match_tag (get_valid_tags_by_language language))))
    ∧ (∀ (tags : List String) (language : String), (validate_tags tags language).Nodup)
    ∧ validate_tags ["legislation", "Unknown"] "en" = ["Legislation"] := by
  refine ⟨?_, ?_, ?_, by decide⟩
  · intro tags language x hx
    have hx2 := mem_dedup_go _ _ _ hx
    obtain ⟨t, _, ht⟩ := List.mem_filterMap.mp hx2
    exact match_tag_mem _ _ _ ht
  · intro tags language
    unfold validate_tags
    rw [dedup_go_eq_dedup_first_spec]
    congr 1
    apply List.filter_eq_self.mpr
    intro a _
    simp
  · intro tags language
    exact (dedup_go_nodup_aux _ _).1

/-- C3 witness: the canonical-casing part applied at the concrete input of
the claim. -/
theorem validate_tags_canonical_dedup_witness :
    "Legislation" ∈ get_valid_tags_by_language "en" :=
  validate_tags_canonical_dedup.1 ["legislation", "Unknown"] "en" "Legislation" (by decide)

/-- C9: for every language other than "en", "zh-hk" and "zh" (the empty
string included), the chain dispatch falls back to the simplified-Chinese
chain and the tag vocabulary falls back to the Chinese one. -/
theorem language_fallback :
    ∀ language : String, language ≠ "en" → language ≠ "zh-hk" → language ≠ "zh" →
      get_content_chain_by_language language = ContentChain.simplified_chinese ∧
      get_valid_tags_by_language language = ["立法", "政策", "HKICPA", "ACCA"] := by
  intro lang h1 h2 h3
  constructor
  · unfold get_content_chain_by_language
    rw [if_neg h1, if_neg h2, if_neg h3]
  · unfold get_valid_tags_by_language
    rw [if_neg h1, if_neg h2, if_neg h3]

/-- C9 witness: the fallback at the empty language string. -/
theorem language_fallback_witness :
    get_content_chain_by_language "" = ContentChain.simplified_chinese ∧
    get_valid_tags_by_language "" = ["立法", "政策", "HKICPA", "ACCA"] :=
  language_fallback "" (by decide) (by decide) (by decide)

/-- C10: save_to_db mutates its news_data argument: with an empty (or
missing, modelled as empty) publish_date and a non-empty current date, the
dict the caller observes after the call carries the current date under
publish_date and differs from the dict passed in. -/
theorem save_to_db_mutates_news_data :
    ∀ (nd : NewsData) (src : SourceDict) (d : String),
      nd.publish_date = "" → d ≠ "" →
      (save_to_db (some nd) src d).1 = some { nd with publish_date := d } ∧
      (save_to_db (some nd) src d).1 ≠ some nd := by
  intro nd src d hpd hd
  have h1 : (save_to_db (some nd) src d).1 = some { nd with publish_date := d } := by
    simp [save_to_db, hpd]
  refine ⟨h1, ?_⟩
  rw [h1]
  intro h
  have h2 := Option.some.inj h
  have h3 := congrArg NewsData.publish_date h2
  simp only at h3
  exact hd (h3.trans hpd)

/-- C10 witness: the mutation observed at a concrete article. -/
theorem save_to_db_mutates_news_data_witness :
    (save_to_db (some { title := "T", summary := "S", tags := ["Legislation"], publish_date := "" })
        { url := "https://a.example/x", language := "en", source := "A" } "2026-10-12").1
      = some { title := "T", summary := "S", tags := ["Legislation"], publish_date := "2026-10-12" } ∧
    (save_to_db (some { title := "T", summary := "S", tags := ["Legislation"], publish_date := "" })
        { url := "https://a.example/x", language := "en", source := "A" } "2026-10-12").1
      ≠ some { title := "T", summary := "S", tags := ["Legislation"], publish_date := "" } :=
  save_to_db_mutates_news_data
    { title := "T", summary := "S", tags := ["Legislation"], publish_date := "" }
    { url := "https://a.example/x", language := "en", source := "A" } "2026-10-12"
    rfl (by decide)

theorem retry_run_error_step {α : Type} (op : Nat → Except PyError α) (attempt r : Nat)
    (e : PyError) (h : op attempt = Except.error e) (hr : e.retryable = true) :
    retry_run op attempt (r + 1) = retry_run op (attempt + 1) r := by
  rw [retry_run, h]
  simp [hr]

theorem retry_run_error_last {α : Type} (op : Nat → Except PyError α) (attempt : Nat)
    (e : PyError) (h : op attempt = Except.error e) (hr : e.retryable = true) :
    retry_run op attempt 0 = (Except.error e, attempt + 1) := by
  rw [retry_run, h]
  simp [hr]

theorem retry_run_error_nonretryable {α : Type} (op : Nat → Except PyError α)
    (attempt r : Nat) (e : PyError) (h : op attempt = Except.error e)
    (hr : e.retryable = false) :
    retry_run op attempt r = (Except.error e, attempt + 1) := by
  rw [retry_run, h]
  simp [hr]

/-- C2: a function wrapped with retry_decorator at max_retries = 3, all of
whose attempts fail with retryable errors, is called exactly 4 times and
the fourth attempt's exception is re-raised unmodified; an error whose
type is not in the retryable tuple, arriving at any attempt k after
retryable failures, propagates at once with no further attempt. -/
theorem retry_decorator_exhaustion_and_nonretryable :
    (∀ (α : Type) (op : Nat → Except PyError α) (e0 e1 e2 e3 : PyError),
      op 0 = Except.error e0 → op 1 = Except.error e1 →
      op 2 = Except.error e2 → op 3 = Except.error e3 →
      e0.retryable = true → e1.retryable = true →
      e2.retryable = true → e3.retryable = true →
      retry_decorator_run op 3 = (Except.error e3, 4))
    ∧ (∀ (α : Type) (op : Nat → Except PyError α) (k : Nat) (e : PyError),
      k ≤ 3 →
      (∀ i, i < k → ∃ e2, op i = Except.error e2 ∧ e2.retryable = true) →
      op k = Except.error e → e.retryable = false →
      retry_decorator_run op 3 = (Except.error e, k + 1)) := by
  constructor
  · intro α op e0 e1 e2 e3 h0 h1 h2 h3 r0 r1 r2 r3
    unfold retry_decorator_run
    rw [retry_run_error_step op 0 2 e0 h0 r0, retry_run_error_step op 1 1 e1 h1 r1,
      retry_run_error_step op 2 0 e2 h2 r2, retry_run_error_last op 3 e3 h3 r3]
  · intro α op k e hk hpre hke hr
    unfold retry_decorator_run
    interval_cases k
    · exact retry_run_error_nonretryable op 0 3 e hke hr
    · obtain ⟨f0, hf0, hr0⟩ := hpre 0 (by omega)
      rw [retry_run_error_step op 0 2 f0 hf0 hr0]
      exact retry_run_error_nonretryable op 1 2 e hke hr
    · obtain ⟨f0, hf0, hr0⟩ := hpre 0 (by omega)
      obtain ⟨f1, hf1, hr1⟩ := hpre 1 (by omega)
      rw [retry_run_error_step op 0 2 f0 hf0 hr0, retry_run_error_step op 1 1 f1 hf1 hr1]
      exact retry_run_error_nonretryable op 2 1 e hke hr
    · obtain ⟨f0, hf0, hr0⟩ := hpre 0 (by omega)
      obtain ⟨f1, hf1, hr1⟩ := hpre 1 (by omega)
      obtain ⟨f2, hf2, hr2⟩ := hpre 2 (by omega)
      rw [retry_run_error_step op 0 2 f0 hf0 hr0, retry_run_error_step op 1 1 f1 hf1 hr1,
        retry_run_error_step op 2 0 f2 hf2 hr2]
      exact retry_run_error_nonretryable op 3 0 e hke hr

/-- C2 witness: four retryable failures give four attempts and surface the
fourth error; a first-attempt non-retryable error gives one attempt. -/
theorem retry_decorator_exhaustion_and_nonretryable_witness :
    retry_decorator_run (fun i => (Except.error ⟨i, true⟩ : Except PyError Nat)) 3
      = (Except.error ⟨3, true⟩, 4)
    ∧ retry_decorator_run (fun i => (Except.error ⟨i, false⟩ : Except PyError Nat)) 3
      = (Except.error ⟨0, false⟩, 1) :=
  ⟨retry_decorator_exhaustion_and_nonretryable.1 Nat _ ⟨0, true⟩ ⟨1, true⟩ ⟨2, true⟩ ⟨3, true⟩
      rfl rfl rfl rfl rfl rfl rfl rfl,
   retry_decorator_exhaustion_and_nonretryable.2 Nat _ 0 ⟨0, false⟩ (by omega)
      (fun i hi => absurd hi (by omega)) rfl rfl⟩

theorem extract_go_none_of_irrelevant (oracle : Nat → Option RawResult) (language : String) :
    ∀ (fuel attempt : Nat),
      (∀ i raw, attempt ≤ i → i < attempt + fuel → oracle i = some raw →
        (validate_and_fix_result raw language).is_relevant = false
        ∨ (validate_and_fix_result raw language).tags = []) →
      extract_go oracle language attempt fuel = none := by
  intro fuel
  induction fuel with
  | zero => intro attempt h; rfl
  | succ f ih =>
    intro attempt h
    rw [extract_go]
    cases h0 : oracle attempt with
    | none =>
      by_cases hf : f = 0
      · simp [hf]
      · simp only [if_neg hf]
        exact ih (attempt + 1) (fun i raw hi1 hi2 hor => h i raw (by omega) (by omega) hor)
    | some raw =>
      simp only
      by_cases hts : (validate_and_fix_result raw language).title = ""
          ∨ (validate_and_fix_result raw language).summary = ""
      · rw [if_pos hts]
        by_cases hf : f = 0
        · simp [hf]
        · simp only [if_neg hf]
          exact ih (attempt + 1) (fun i raw2 hi1 hi2 hor => h i raw2 (by omega) (by omega) hor)
      · rw [if_neg hts]
        rcases h attempt raw le_rfl (by omega) h0 with hrel | htags
        · rw [if_pos hrel]
        · by_cases hrel2 : (validate_and_fix_result raw language).is_relevant = false
          · rw [if_pos hrel2]
          · rw [if_neg hrel2, if_pos htags]

/-- C1: extract_news_content is absent whenever every parsed oracle
response validates to a result that is irrelevant or has an empty
validated tag list — regardless of how title, summary and tags are
otherwise populated; and a first-attempt response validating to a relevant
result with non-empty title, summary and validated tags is returned. -/
theorem extract_news_content_acceptance :
    (∀ (oracle : Nat → Option RawResult) (language : String),
      (∀ i raw, i < 3 → oracle i = some raw →
        (validate_and_fix_result raw language).is_relevant = false
        ∨ (validate_and_fix_result raw language).tags = []) →
      extract_news_content oracle language = none)
    ∧ (∀ (oracle : Nat → Option RawResult) (language : String) (raw : RawResult),
      oracle 0 = some raw →
      (validate_and_fix_result raw language).title ≠ "" →
      (validate_and_fix_result raw language).summary ≠ "" →
      (validate_and_fix_result raw language).is_relevant = true →
      (validate_and_fix_result raw language).tags ≠ [] →
      extract_news_content oracle language
        = some (news_of (validate_and_fix_result raw language))) := by
  constructor
  · intro oracle language h
    exact extract_go_none_of_irrelevant oracle language 3 0
      (fun i raw hi1 hi2 hor => h i raw (by omega) hor)
  · intro oracle language raw h0 ht hs hrel htags
    unfold extract_news_content
    rw [extract_go, h0]
    simp only
    rw [if_neg (by simp [ht, hs]), if_neg (by simp [hrel]), if_neg htags]

/-- C1 witness: an irrelevant populated result is filtered; a relevant
tagged result is returned. -/
theorem extract_news_content_acceptance_witness :
    extract_news_content
      (fun _ => some { title := some "T", summary := some "S",
                       tags := some (PyTags.ofList ["Legislation"]),
                       publish_date := some "2026-01-01",
                       is_relevant := some (PyBool.ofBool false) }) "en" = none
    ∧ extract_news_content
      (fun _ => some { title := some "T", summary := some "S",
                       tags := some (PyTags.ofList ["Legislation"]),
                       publish_date := some "2026-01-01",
                       is_relevant := some (PyBool.ofBool true) }) "en"
      = some { title := "T", summary := "S", tags := ["Legislation"],
               publish_date := "2026-01-01" } :=
  ⟨extract_news_content_acceptance.1 _ "en"
      (fun i raw _ hraw => by cases Option.some.inj hraw; left; decide),
   (extract_news_content_acceptance.2 _ "en"
      { title := some "T", summary := some "S",
        tags := some (PyTags.ofList ["Legislation"]),
        publish_date := some "2026-01-01",
        is_relevant := some (PyBool.ofBool true) }
      rfl (by decide) (by decide) (by decide) (by decide)).trans (by decide)⟩

/-- C6: an accepted extraction result with an empty publish_date is
returned from extract_news_content with publish_date still empty; the
current date is substituted only by save_to_db, whose row carries the
current date exactly when the extracted publish_date was empty, and the
extracted publish_date otherwise. -/
theorem publish_date_persistence :
    (∀ (oracle : Nat → Option RawResult) (language : String) (raw : RawResult),
      oracle 0 = some raw →
      (validate_and_fix_result raw language).title ≠ "" →
      (validate_and_fix_result raw language).summary ≠ "" →
      (validate_and_fix_result raw language).is_relevant = true →
      (validate_and_fix_result raw language).tags ≠ [] →
      (validate_and_fix_result raw language).publish_date = "" →
      extract_news_content oracle language
        = some { title := (validate_and_fix_result raw language).title
                 summary := (validate_and_fix_result raw language).summary
                 tags := (validate_and_fix_result raw language).tags
                 publish_date := "" })
    ∧ (∀ (nd : NewsData) (src : SourceDict) (d : String),
      nd.publish_date = "" →
      (save_to_db (some nd) src d).2
        = some { language := src.language, source := src.source, date := d,
                 content := nd.summary, url := src.url, title := nd.title,
                 news_type := String.intercalate ", " nd.tags })
    ∧ (∀ (nd : NewsData) (src : SourceDict) (d : String),
      nd.publish_date ≠ "" →
      (save_to_db (some nd) src d).2
        = some { language := src.language, source := src.source, date := nd.publish_date,
                 content := nd.summary, url := src.url, title := nd.title,
                 news_type := String.intercalate ", " nd.tags }) := by
  refine ⟨?_, ?_, ?_⟩
  · intro oracle language raw h0 ht hs hrel htags hpd
    unfold extract_news_content
    rw [extract_go, h0]
    simp only
    rw [if_neg (by simp [ht, hs]), if_neg (by simp [hrel]), if_neg htags]
    rw [news_of, hpd]
  · intro nd src d hpd
    simp [save_to_db, hpd]
  · intro nd src d hpd
    simp [save_to_db, hpd]

/-- C6 witness: a dateless accepted article is extracted with an empty
date and persisted with the current date; a dated one keeps its date. -/
theorem publish_date_persistence_witness :
    (save_to_db
        (some { title := "T", summary := "S", tags := ["Legislation"], publish_date := "" })
        { url := "https://a.example/x", language := "en", source := "A" } "2026-10-12").2
      = some { language := "en", source := "A", date := "2026-10-12", content := "S",
               url := "https://a.example/x", title := "T", news_type := "Legislation" }
    ∧ (save_to_db
        (some { title := "T", summary := "S", tags := ["Legislation"],
                publish_date := "2025-03-01" })
        { url := "https://a.example/x", language := "en", source := "A" } "2026-10-12").2
      = some { language := "en", source := "A", date := "2025-03-01", content := "S",
               url := "https://a.example/x", title := "T", news_type := "Legislation" } :=
  ⟨(publish_date_persistence.2.1
      { title := "T", summary := "S", tags := ["Legislation"], publish_date := "" }
      { url := "https://a.example/x", language := "en", source := "A" } "2026-10-12"
      rfl).trans (by decide),
   (publish_date_persistence.2.2
      { title := "T", summary := "S", tags := ["Legislation"], publish_date := "2025-03-01" }
      { url := "https://a.example/x", language := "en", source := "A" } "2026-10-12"
      (by decide)).trans (by decide)⟩

/-- C5 counterexample: a blank (whitespace-only) entry is not dropped —
the falsiness test of normalize_urls removes only the empty string, and
the blank entry resolves to the base, so the output is non-empty where the
claim requires it to be empty. -/
theorem normalize_urls_blank_counterexample :
    normalize_urls [" "] "https://news.example" = ["https://news.example"]
    ∧ normalize_urls [" "] "https://news.example" ≠ [] := by
  exact ⟨by decide, by decide⟩

/-- C5 (amended): the output of normalize_urls is the input with all empty
entries removed (a blank, whitespace-only entry is kept) and every
remaining entry normalized — passed through if it begins with http or
https, resolved with urljoin otherwise — in the same relative order, with
duplicates kept rather than collapsed. -/
theorem normalize_urls_filter_map :
    ∀ (urls : List String) (base_url : String),
      normalize_urls urls base_url
        = (urls.filter (fun u => u ≠ "")).map
            (fun u => if starts_with_http u then u else urljoin base_url u) := by
  intro urls base
  induction urls with
  | nil => rfl
  | cons u rest ih =>
    rw [normalize_urls]
    by_cases h0 : u = ""
    · rw [if_pos h0]
      simp [List.filter_cons, h0, ih]
    · rw [if_neg h0]
      by_cases h1 : starts_with_http u
      · rw [if_pos h1]
        simp [List.filter_cons, h0, h1, ih]
      · rw [if_neg h1]
        simp [List.filter_cons, h0, h1, ih]

theorem mem_chunkList : ∀ (l : List String) (u : String),
    (∃ b, b ∈ chunkList l ∧ u ∈ b) ↔ u ∈ l := by
  intro l
  induction l using chunkList.induct with
  | case1 =>
    intro u
    simp [chunkList]
  | case2 x xs ih =>
    intro u
    rw [chunkList]
    constructor
    · rintro ⟨b, hb, hub⟩
      rcases List.mem_cons.mp hb with rfl | hb2
      · rcases List.mem_cons.mp hub with rfl | hu2
        · exact List.mem_cons_self _ _
        · exact List.mem_cons_of_mem _ (List.mem_of_mem_take hu2)
      · have hd := (ih u).mp ⟨b, hb2, hub⟩
        exact List.mem_cons_of_mem _ (List.mem_of_mem_drop hd)
    · intro hu
      rcases List.mem_cons.mp hu with rfl | hu2
      · exact ⟨_, List.mem_cons_self _ _, List.mem_cons_self _ _⟩
      · by_cases htake : u ∈ xs.take 49
        · exact ⟨_, List.mem_cons_self _ _, List.mem_cons_of_mem _ htake⟩
        · have hdrop : u ∈ xs.drop 49 := by
            have hsplit := List.take_append_drop 49 xs
            rcases List.mem_append.mp (hsplit ▸ hu2) with h | h
            · exact absurd h htake
            · exact h
          obtain ⟨b, hb, hub⟩ := (ih u).mpr hdrop
          exact ⟨b, List.mem_cons_of_mem _ hb, hub⟩

theorem mem_collect_existing (db : String → Bool) (fails : Nat → Bool)
    (hnf : ∀ j, fails j = false) :
    ∀ (bs : List (List String)) (i : Nat) (u : String),
      u ∈ collect_existing db fails i bs ↔ ∃ b, b ∈ bs ∧ u ∈ b ∧ db u = true := by
  intro bs
  induction bs with
  | nil =>
    intro i u
    simp [collect_existing]
  | cons b bs ih =>
    intro i u
    rw [collect_existing, hnf i]
    simp only [Bool.false_eq_true, if_false, List.mem_append, List.mem_filter, ih (i + 1)]
    constructor
    · rintro (⟨hub, hdb⟩ | ⟨b2, hb2, hub2, hdb2⟩)
      · exact ⟨b, List.mem_cons_self _ _, hub, hdb⟩
      · exact ⟨b2, List.mem_cons_of_mem _ hb2, hub2, hdb2⟩
    · rintro ⟨b2, hb2, hub2, hdb2⟩
      rcases List.mem_cons.mp hb2 with rfl | hb3
      · exact Or.inl ⟨hub2, hdb2⟩
      · exact Or.inr ⟨b2, hb3, hub2, hdb2⟩

theorem check_urls_exist_no_fail (db : String → Bool) (fails : Nat → Bool)
    (hnf : ∀ j, fails j = false) (urls : List String) :
    check_urls_exist db fails urls = urls.filter (fun u => !db u) := by
  unfold check_urls_exist
  by_cases h0 : urls = []
  · subst h0
    simp
  · rw [if_neg h0]
    apply List.filter_congr
    intro u hu
    have hiff : u ∈ collect_existing db fails 0 (chunkList urls) ↔ db u = true := by
      rw [mem_collect_existing db fails hnf]
      constructor
      · rintro ⟨b, _, _, hdb⟩
        exact hdb
      · intro hdb
        obtain ⟨b, hb, hub⟩ := (mem_chunkList urls u).mpr hu
        exact ⟨b, hb, hub, hdb⟩
    cases hdb : db u
    · have : ¬ u ∈ collect_existing db fails 0 (chunkList urls) := fun hmem =>
        by rw [hiff.mp hmem] at hdb; cases hdb
      simp [this]
    · simp [hiff.mpr hdb]

/-- C7: URL deduplication is idempotent — with the store state unchanged
(and its batch queries succeeding), filtering an already-filtered list
changes nothing. -/
theorem check_urls_exist_idempotent :
    ∀ (db : String → Bool) (fails : Nat → Bool) (urls : List String),
      (∀ j, fails j = false) →
      check_urls_exist db fails (check_urls_exist db fails urls)
        = check_urls_exist db fails urls := by
  intro db fails urls hnf
  rw [check_urls_exist_no_fail db fails hnf urls, check_urls_exist_no_fail db fails hnf _,
    List.filter_filter]
  apply List.filter_congr
  intro u _
  exact Bool.and_self _

/-- C7 witness: idempotence at a concrete store and URL list. -/
theorem check_urls_exist_idempotent_witness :
    check_urls_exist (fun u => decide (u = "https://a.example/old")) (fun _ => false)
      (check_urls_exist (fun u => decide (u = "https://a.example/old")) (fun _ => false)
        ["https://a.example/old", "https://a.example/new"])
    = check_urls_exist (fun u => decide (u = "https://a.example/old")) (fun _ => false)
      ["https://a.example/old", "https://a.example/new"] :=
  check_urls_exist_idempotent _ _ _ (fun _ => rfl)

theorem process_url_loop_filterMap (env : CrawlEnv) (src : SourceDict) :
    ∀ urls : List String,
      process_url_loop env src urls = urls.filterMap (process_news_url env src) := by
  intro urls
  induction urls with
  | nil => rfl
  | cons u rest ih =>
    rw [process_url_loop]
    cases h : process_news_url env src u with
    | none => simp [List.filterMap_cons, h, ih]
    | some row => simp [List.filterMap_cons, h, ih]

theorem crawl_all_append (env : CrawlEnv) :
    ∀ l1 l2 : List SourceDict, crawl_all env (l1 ++ l2) = crawl_all env l1 ++ crawl_all env l2 := by
  intro l1 l2
  induction l1 with
  | nil => rfl
  | cons s rest ih =>
    rw [List.cons_append, crawl_all, crawl_all, ih, List.append_assoc]

/-- C8: failure isolation of the crawl cycle.  The per-URL loop of a
source reaches every URL independently (it is the filterMap of the total,
exception-catching per-URL processing), so a URL whose processing
succeeds is persisted no matter how the URLs before and after it fail;
and a row produced by one source is produced by the whole cycle no matter
what the other sources do. -/
theorem crawl_failure_isolation :
    (∀ (env : CrawlEnv) (src : SourceDict) (urls : List String),
      process_url_loop env src urls = urls.filterMap (process_news_url env src))
    ∧ (∀ (env : CrawlEnv) (src : SourceDict) (pre : List String) (u : String)
        (post : List String) (row : DBRow),
      process_news_url env src u = some row →
      row ∈ process_url_loop env src (pre ++ u :: post))
    ∧ (∀ (env : CrawlEnv) (pre : List SourceDict) (s : SourceDict) (post : List SourceDict)
        (row : DBRow),
      row ∈ crawl_news env s → row ∈ crawl_all env (pre ++ s :: post)) := by
  refine ⟨process_url_loop_filterMap, ?_, ?_⟩
  · intro env src pre u post row h
    rw [process_url_loop_filterMap]
    exact List.mem_filterMap.mpr ⟨u, by simp, h⟩
  · intro env pre s post row h
    rw [crawl_all_append]
    apply List.mem_append_right
    rw [crawl_all]
    exact List.mem_append_left _ h

/-- C8 witness: with a first URL whose fetch raises and a second URL that
succeeds, the second URL's row is still persisted by the loop. -/
theorem crawl_failure_isolation_witness :
    ({ language := "en", source := "A", date := "2026-01-01", content := "S",
       url := "https://good.example/b", title := "T", news_type := "Legislation" } : DBRow)
      ∈ process_url_loop
        { fetch := fun u => if u = "https://bad.example/a"
              then Except.error ⟨7, true⟩ else Except.ok "page"
          discover := fun _ => Except.ok []
          extract := fun _ _ =>
            some { title := "T", summary := "S", tags := ["Legislation"],
                   publish_date := "2026-01-01" }
          db := fun _ => false
          batch_fails := fun _ => false
          insert_ok := fun _ => true
          current_date := "2026-10-12" }
        { url := "https://s.example", language := "en", source := "A" }
        ["https://bad.example/a", "https://good.example/b"] :=
  crawl_failure_isolation.2.1
    { fetch := fun u => if u = "https://bad.example/a"
          then Except.error ⟨7, true⟩ else Except.ok "page"
      discover := fun _ => Except.ok []
      extract := fun _ _ =>
        some { title := "T", summary := "S", tags := ["Legislation"],
               publish_date := "2026-01-01" }
      db := fun _ => false
      batch_fails := fun _ => false
      insert_ok := fun _ => true
      current_date := "2026-10-12" }
    { url := "https://s.example", language := "en", source := "A" }
    ["https://bad.example/a"] "https://good.example/b" [] _ (by decide)

theorem str_data_append (a b : String) : (a ++ b).data = a.data ++ b.data := rfl

theorem eq_empty_of_data_eq_nil {s : String} (h : s.data = []) : s = "" :=
  congrArg String.mk h

theorem clean_chars_of_clean :
    ∀ l : List Char, (∀ c ∈ l, c0_or_space c = false) → clean_chars l = l := by
  intro l h
  unfold clean_chars
  have h1 : l.dropWhile c0_or_space = l := by
    cases l with
    | nil => rfl
    | cons c cs =>
      rw [List.dropWhile_cons, h c (List.mem_cons_self c cs)]
      simp
  rw [h1]
  apply List.filter_eq_self.mpr
  intro c hc
  have h2 : ¬ c.toNat ≤ 32 := by
    have h3 := h c hc
    unfold c0_or_space at h3
    exact of_decide_eq_false h3
  rw [Bool.not_eq_true']
  unfold unsafe_byte
  apply decide_eq_false
  rintro (rfl | rfl | rfl) <;> exact h2 (by decide)

theorem schemeSplitAux_append :
    ∀ (s r : List Char), (∀ c ∈ s, isSchemeChar c = true) →
      schemeSplitAux (s ++ ':' :: r) = some (s, r) := by
  intro s
  induction s with
  | nil =>
    intro r _
    rw [List.nil_append, schemeSplitAux, if_pos rfl]
  | cons c cs ih =>
    intro r h
    rw [List.cons_append, schemeSplitAux]
    have hc := h c (List.mem_cons_self c cs)
    have hcne : ¬ c = ':' := by
      intro hceq
      rw [hceq] at hc
      exact absurd hc (by decide)
    rw [if_neg hcne, if_pos hc, ih r (fun d hd => h d (List.mem_cons_of_mem _ hd))]

theorem netlocSplit_append :
    ∀ (l t : List Char),
      (∀ c ∈ l, ¬(c = '/' ∨ c = '?' ∨ c = '#')) →
      (t = [] ∨ ∃ c t2, t = c :: t2 ∧ (c = '/' ∨ c = '?' ∨ c = '#')) →
      netlocSplit (l ++ t) = (l, t) := by
  intro l
  induction l with
  | nil =>
    intro t _ ht
    rcases ht with rfl | ⟨c, t2, rfl, hstop⟩
    · rfl
    · rw [List.nil_append, netlocSplit, if_pos hstop]
  | cons c cs ih =>
    intro t hchars ht
    rw [List.cons_append, netlocSplit, if_neg (hchars c (List.mem_cons_self c cs)),
      ih t (fun d hd => hchars d (List.mem_cons_of_mem _ hd)) ht]

theorem map_toLower_of_lower :
    ∀ l : List Char, (∀ c ∈ l, c.toLower = c) → l.map Char.toLower = l := by
  intro l
  induction l with
  | nil => intro _; rfl
  | cons c cs ih =>
    intro h
    rw [List.map_cons, h c (List.mem_cons_self c cs),
      ih (fun d hd => h d (List.mem_cons_of_mem _ hd))]

theorem extract_base_url_origin (scheme host : String) (tail : List Char)
    (hs : scheme_ok scheme = true) (hh : host_ok host = true)
    (htc : ∀ c ∈ tail, c0_or_space c = false)
    (ht : tail = [] ∨ ∃ c t2, tail = c :: t2 ∧ (c = '/' ∨ c = '?' ∨ c = '#')) :
    ∀ s : String, s.data = (scheme ++ "://" ++ host).data ++ tail →
      extract_base_url s = scheme ++ "://" ++ host := by
  intro s hsdata
  unfold scheme_ok at hs
  rcases hd : scheme.data with _ | ⟨c, cs⟩
  · rw [hd] at hs
    cases hs
  · rw [hd] at hs
    simp only [Bool.and_eq_true, List.all_eq_true, Bool.not_eq_true'] at hs
    obtain ⟨⟨⟨hca, hcl⟩, hcc⟩, hcs⟩ := hs
    unfold host_ok at hh
    simp only [List.all_eq_true, Bool.and_eq_true, Bool.not_eq_true'] at hh
    have hsep : ("://" : String).data = [':', '/', '/'] := rfl
    have hbase : (scheme ++ "://" ++ host).data
        = c :: (cs ++ ':' :: ('/' :: '/' :: host.data)) := by
      rw [str_data_append, str_data_append, hd, hsep]
      simp [List.cons_append, List.append_assoc]
    have hsd : s.data = c :: (cs ++ ':' :: ('/' :: '/' :: (host.data ++ tail))) := by
      rw [hsdata, hbase]
      simp [List.cons_append, List.append_assoc]
    have hallclean : ∀ x ∈ s.data, c0_or_space x = false := by
      intro x hx
      rw [hsd] at hx
      rcases List.mem_cons.mp hx with rfl | hx2
      · exact hcc
      rcases List.mem_append.mp hx2 with hx3 | hx3
      · exact (hcs x hx3).2
      rcases List.mem_cons.mp hx3 with rfl | hx4
      · decide
      rcases List.mem_cons.mp hx4 with rfl | hx5
      · decide
      rcases List.mem_cons.mp hx5 with rfl | hx6
      · decide
      rcases List.mem_append.mp hx6 with hx7 | hx7
      · exact (hh x hx7).2
      · exact htc x hx7
    have hclean : clean_chars s.data = s.data := clean_chars_of_clean _ hallclean
    have hallscheme : ∀ x ∈ c :: cs, isSchemeChar x = true := by
      intro x hx
      rcases List.mem_cons.mp hx with rfl | hx2
      · unfold isSchemeChar
        rw [hca]
        rfl
      · exact (hcs x hx2).1.1
    have hsplit : scheme_split_chars s.data
        = some (c :: cs, '/' :: '/' :: (host.data ++ tail)) := by
      rw [hsd, scheme_split_chars, if_pos hca]
      exact schemeSplitAux_append (c :: cs) ('/' :: '/' :: (host.data ++ tail)) hallscheme
    have hlow : ∀ x ∈ c :: cs, x.toLower = x := by
      intro x hx
      rcases List.mem_cons.mp hx with rfl | hx2
      · exact of_decide_eq_true hcl
      · exact of_decide_eq_true (hcs x hx2).1.2
    have hnet : netloc_of ('/' :: '/' :: (host.data ++ tail)) = host.data := by
      unfold netloc_of
      rw [if_pos
        (show ('/' :: '/' :: (host.data ++ tail)).take 2 = ['/', '/'] from rfl)]
      have hrest : ('/' :: '/' :: (host.data ++ tail)).drop 2 = host.data ++ tail := rfl
      rw [hrest, netlocSplit_append host.data tail
        (fun d hd2 => fun hstop => by
          have := (hh d hd2).1
          exact absurd hstop (of_decide_eq_false this)) ht]
    unfold extract_base_url
    rw [hclean, hsplit]
    simp only
    rw [map_toLower_of_lower _ hlow, hnet, ← hd]

/-- C4 counterexample: the entry "//evil.example/x" is non-empty and does
not begin with http or https, yet normalization resolves it to a URL whose
scheme+host is the entry's own host, not the origin of the source URL —
refuting the claim that every such entry lands on the source origin. -/
theorem normalize_urls_origin_counterexample :
    normalize_urls ["//evil.example/x"] (extract_base_url "https://news.example/index.html")
      = ["https://evil.example/x"]
    ∧ extract_base_url "https://evil.example/x" = "https://evil.example"
    ∧ extract_base_url "https://news.example/index.html" = "https://news.example"
    ∧ ("https://evil.example" : String) ≠ "https://news.example" :=
  ⟨by decide, by decide, by decide, by decide⟩

/-- C4 (amended): an entry beginning with http or https passes through
normalization unchanged; any other non-empty entry that carries no scheme
of its own, is not protocol-relative (does not begin with "//") and is
free of C0-control and space characters is resolved against a well-formed
origin "scheme://host" of the source URL to a URL whose scheme+host (its
extract_base_url) equals that origin.  (Entries carrying another scheme,
such as ftp or mailto, and protocol-relative entries keep their own
scheme or host, as the counterexample shows.) -/
theorem normalize_urls_origin_amended :
    (∀ (url base : String), starts_with_http url = true → normalize_urls [url] base = [url])
    ∧ (∀ (url scheme host : String),
      url ≠ "" →
      starts_with_http url = false →
      scheme_split_chars url.data = none →
      protocol_relative url.data = false →
      (∀ c ∈ url.data, c0_or_space c = false) →
      scheme_ok scheme = true →
      host_ok host = true →
      normalize_urls [url] (scheme ++ "://" ++ host)
          = [urljoin (scheme ++ "://" ++ host) url]
        ∧ extract_base_url (urljoin (scheme ++ "://" ++ host) url)
          = scheme ++ "://" ++ host) := by
  constructor
  · intro url base hhttp
    have hne : ¬ url = "" := by
      intro h0
      rw [h0] at hhttp
      cases hhttp
    rw [normalize_urls, if_neg hne, if_pos hhttp, normalize_urls]
  · intro url scheme host hne hhttp hsch hpr hcleanchars hs hh
    have hud : url.data ≠ [] := fun hnil => hne (eq_empty_of_data_eq_nil hnil)
    have hbne : (scheme ++ "://" ++ host) ≠ "" := by
      intro h0
      have h1 := congrArg List.length (congrArg String.data h0)
      rw [str_data_append, str_data_append] at h1
      have hsep : ("://" : String).data = [':', '/', '/'] := rfl
      have hemp : ("" : String).data = [] := rfl
      rw [hsep, hemp] at h1
      simp [List.length_append] at h1
    have hclean : clean_chars url.data = url.data := clean_chars_of_clean _ hcleanchars
    have hjoin : urljoin (scheme ++ "://" ++ host) url
        = resolve_rel (scheme ++ "://" ++ host)
            (scheme_of (scheme ++ "://" ++ host)) url.data := by
      unfold urljoin
      rw [if_neg hbne, if_neg hne, hclean, hsch]
      rcases hd2 : url.data with _ | ⟨d, ds⟩
      · exact absurd hd2 hud
      · rfl
    have htake2 : ¬ url.data.take 2 = ['/', '/'] := by
      unfold protocol_relative at hpr
      exact of_decide_eq_false hpr
    refine ⟨?_, ?_⟩
    · rw [normalize_urls, if_neg hne, if_neg (by simp [hhttp]), normalize_urls]
    · rw [hjoin]
      rcases hd2 : url.data with _ | ⟨d, ds⟩
      · exact absurd hd2 hud
      · by_cases hsep2 : (d :: ds).take 1 = ['/'] ∨ (d :: ds).take 1 = ['?']
            ∨ (d :: ds).take 1 = ['#']
        · have hres : resolve_rel (scheme ++ "://" ++ host)
              (scheme_of (scheme ++ "://" ++ host)) (d :: ds)
              = (scheme ++ "://" ++ host) ++ url := by
            unfold resolve_rel
            rw [if_neg (hd2 ▸ htake2), if_pos hsep2, ← hd2]
          rw [hres]
          apply extract_base_url_origin scheme host url.data hs hh hcleanchars
          · rcases hsep2 with h1 | h1 | h1 <;>
              exact Or.inr ⟨d, ds, hd2, by
                have h2 : [d] = _ := h1
                injection h2 with h3 _
                simp [h3]⟩
          · exact str_data_append _ _
        · have hres : resolve_rel (scheme ++ "://" ++ host)
              (scheme_of (scheme ++ "://" ++ host)) (d :: ds)
              = (scheme ++ "://" ++ host) ++ "/" ++ url := by
            unfold resolve_rel
            rw [if_neg (hd2 ▸ htake2), if_neg hsep2, ← hd2]
          rw [hres]
          apply extract_base_url_origin scheme host ('/' :: url.data) hs hh
          · intro x hx
            rcases List.mem_cons.mp hx with rfl | hx2
            · decide
            · exact hcleanchars x hx2
          · exact Or.inr ⟨'/', url.data, rfl, Or.inl rfl⟩
          · rw [str_data_append, str_data_append]
            have hslash : ("/" : String).data = ['/'] := rfl
            rw [hslash]
            simp [List.append_assoc]

/-- C4 witness: the pass-through and the origin preservation at concrete
inputs. -/
theorem normalize_urls_origin_amended_witness :
    normalize_urls ["https://a.example/c"] "https://news.example" = ["https://a.example/c"]
    ∧ (normalize_urls ["news/1"] ("https" ++ "://" ++ "news.example")
        = [urljoin ("https" ++ "://" ++ "news.example") "news/1"]
      ∧ extract_base_url (urljoin ("https" ++ "://" ++ "news.example") "news/1")
        = "https" ++ "://" ++ "news.example") :=
  ⟨normalize_urls_origin_amended.1 "https://a.example/c" "https://news.example" (by decide),
   normalize_urls_origin_amended.2 "news/1" "https" "news.example"
    (by decide) (by decide) (by decide) (by decide)
    (by decide) (by decide) (by decide)⟩

end TaxNews
